import Mathlib

/-!
A shallow embedding of the lexical scanner in `src/scanner.rs` of the `lox`
repository, together with theorems checking the natural-language specification
against it.

Modelling conventions:

* Machine integers (`usize`) are modelled by `Nat`; the scanner only ever
  increments its indices, so no overflow wrapping is relevant.
* The Rust struct stores the source twice: as a UTF-8 string `src` and as a
  character vector `chars` (with `chars = src.chars().collect()`).  Since the
  bytes of `src` are exactly the UTF-8 encoding of `chars`, we keep only
  `chars` and model the byte-indexed slicing `&self.src[a..b]` by
  `byteSlice chars a b` below.
* Fallible operations are modelled with `Option`: a `none` result of a
  recognizer or of the whole scan stands for a Rust panic (an out-of-bounds or
  non-character-boundary string slice, or a failing `.parse::<f32>().unwrap()`).
* `Token::Number` carries an `f32` in Rust.  No claim under scrutiny depends on
  floating-point values, only on which lexeme was parsed and whether parsing
  succeeds, so the payload is modelled by the lexeme string handed to
  `parse::<f32>` and parse success by `rustF32ParseOk` (Rust's documented
  `f32::from_str` grammar).
-/

/-- Byte-offset prefix removal on a character list: `dropBytes cs n` drops the
characters occupying the first `n` UTF-8 bytes, returning `none` when `n` does
not fall on a character boundary or exceeds the total byte length.  This is the
validity condition under which Rust's `&s[n..]` does not panic. -/
def dropBytes : List Char → Nat → Option (List Char)
  | cs, 0 => some cs
  | [], _ + 1 => none
  | c :: cs, n + 1 =>
    if c.utf8Size ≤ n + 1 then dropBytes cs (n + 1 - c.utf8Size) else none

/-- Byte-offset prefix extraction, the companion of `dropBytes`: take the
characters occupying the first `n` UTF-8 bytes, `none` on a non-boundary. -/
def takeBytes : List Char → Nat → Option (List Char)
  | _, 0 => some []
  | [], _ + 1 => none
  | c :: cs, n + 1 =>
    if c.utf8Size ≤ n + 1 then (takeBytes cs (n + 1 - c.utf8Size)).map (c :: ·) else none

/-- Rust's byte-indexed string slice `&s[a..b]`: panics (`none`) unless
`a ≤ b`, both offsets lie on character boundaries, and `b` is at most the byte
length; otherwise yields the characters between the two boundaries. -/
def byteSlice (cs : List Char) (a b : Nat) : Option (List Char) :=
  if a ≤ b then (dropBytes cs a).bind (fun t => takeBytes t (b - a)) else none

/-- Rust's `char::is_ascii_digit`. -/
def isAsciiDigit (c : Char) : Bool := '0' ≤ c && c ≤ '9'

/-- Models Rust's `char::is_alphabetic` (the Unicode `Alphabetic` property).
The table is exact for every character below U+0100 (ASCII letters plus the
Latin-1 letters `ª µ º À–Ö Ø–ö ø–ÿ`); characters at U+0100 and above are
conservatively mapped to `false`.  No theorem below classifies a character at
or above U+0100 through this predicate. -/
def rustIsAlphabetic (c : Char) : Bool :=
  let n := c.toNat
  (0x61 ≤ n && n ≤ 0x7A) || (0x41 ≤ n && n ≤ 0x5A) ||
  n == 0xAA || n == 0xB5 || n == 0xBA ||
  (0xC0 ≤ n && n ≤ 0xFF && n != 0xD7 && n != 0xF7)

/-- Models Rust's `char::is_numeric` (Unicode general category `N`): exact
below U+0100 (the ASCII digits plus `² ³ ¹ ¼ ½ ¾`), `false` above. -/
def rustIsNumeric (c : Char) : Bool :=
  let n := c.toNat
  (0x30 ≤ n && n ≤ 0x39) ||
  n == 0xB2 || n == 0xB3 || n == 0xB9 || n == 0xBC || n == 0xBD || n == 0xBE

/-- Rust's `char::is_alphanumeric`, defined as alphabetic-or-numeric. -/
def rustIsAlphanumeric (c : Char) : Bool := rustIsAlphabetic c || rustIsNumeric c

/-- ASCII lower-casing, as used by Rust's case-insensitive float keywords. -/
def asciiLower (c : Char) : Char :=
  if 'A' ≤ c && c ≤ 'Z' then Char.ofNat (c.toNat + 32) else c

/-- Strip one optional leading sign, per Rust's `f32::from_str` grammar. -/
def stripSign : List Char → List Char
  | '+' :: r => r
  | '-' :: r => r
  | l => l

/-- The optional exponent tail of Rust's `f32::from_str` grammar:
empty, or `('e'|'E') Sign? Digit+`. -/
def expValid : List Char → Bool
  | [] => true
  | c :: r =>
    (c == 'e' || c == 'E') &&
      (let r' := stripSign r
       !r'.isEmpty && r'.all isAsciiDigit)

/-- The mantissa part of Rust's `f32::from_str` grammar:
`Digit+ ('.' Digit*)? Exp?` or `'.' Digit+ Exp?`. -/
def mantissaValid (l : List Char) : Bool :=
  let d1 := l.takeWhile isAsciiDigit
  let r1 := l.dropWhile isAsciiDigit
  match r1 with
  | '.' :: r2 =>
    let d2 := r2.takeWhile isAsciiDigit
    let r3 := r2.dropWhile isAsciiDigit
    (!d1.isEmpty || !d2.isEmpty) && expValid r3
  | _ => !d1.isEmpty && expValid r1

/-- Whether `s.parse::<f32>()` succeeds on this character sequence, following
the grammar documented for Rust's `f32::from_str`:
`Sign? ('inf' | 'infinity' | 'nan' | Number)`, keywords case-insensitive. -/
def rustF32ParseOk (l : List Char) : Bool :=
  let l' := stripSign l
  let low := l'.map asciiLower
  low == "inf".data || low == "infinity".data || low == "nan".data || mantissaValid l'

/-- The token enumeration of `scanner.rs`.  The `Number` payload is modelled by
the lexeme string parsed into the Rust `f32` (see the module comment). -/
inductive Token where
  | LeftParen | RightParen | LeftBrace | RightBrace
  | Comma | Dot | Minus | Plus | SemiColon | Star | Slash
  | Bang | BangEqual | Equal | EqualEqual
  | Greater | GreaterEqual | Less | LessEqual
  | Identifier (id : String)
  | String (s : String)
  | Number (lexeme : String)
  | And | Class | Else | False | Fun | For | If | Nil | Or | Print
  | Return | Super | This | True | Var | While
  | Eof
  deriving DecidableEq

/-- The `ScannerError` enumeration of `scanner.rs`; each variant carries the
line number it was raised at. -/
inductive ScannerError where
  | UnknownToken (line : Nat)
  | UnterminatedString (line : Nat)
  | InvalidNumber (line : Nat)
  deriving DecidableEq

/-- The `Scanner` struct of `scanner.rs`.  The redundant `src : String` field
is omitted; byte-indexed slicing of `src` is modelled by `byteSlice chars`
(see the module comment). -/
structure Scanner where
  chars : List Char
  current : Nat
  start : Nat
  line : Nat
  errors : List ScannerError
  deriving DecidableEq

/-- `Scanner::new`. -/
def Scanner.new (src : String) : Scanner :=
  { chars := src.data, current := 0, start := 0, line := 1, errors := [] }

/-- `Scanner::advance`. -/
def Scanner.advance (st : Scanner) : Scanner := { st with current := st.current + 1 }

/-- `Scanner::at_end`. -/
def Scanner.atEnd (st : Scanner) : Bool := st.chars.length ≤ st.current

/-- `Scanner::peek`: the character at `current`, `'\x00'` past the end.  (The
Rust code tests `at_end` explicitly; `List.getD` with default `'\x00'` is the
same function.) -/
def Scanner.peek (st : Scanner) : Char := st.chars.getD st.current '\x00'

/-- `Scanner::peek_next`: the character at `current + 1`, `'\x00'` past the end. -/
def Scanner.peekNext (st : Scanner) : Char := st.chars.getD (st.current + 1) '\x00'

/-- `Scanner::match_next`: `false` when `at_end`, else compare `peek_next`. -/
def Scanner.matchNext (st : Scanner) (toMatch : Char) : Bool :=
  if st.atEnd then false else st.peekNext == toMatch

/-- Net effect of the Rust loop `while self.peek_next().is_p() { self.advance(); }`:
each iteration inspects the character after `current` and advances while the
predicate holds (with `'\x00'`, on which every predicate used is false, standing
for end of input), so `current` ends just before the first failure — i.e. it
grows by the length of the maximal satisfying run starting at `current + 1`. -/
def runEnd (p : Char → Bool) (chars : List Char) (cur : Nat) : Nat :=
  cur + ((chars.drop (cur + 1)).takeWhile p).length

/-- The keyword table of `Scanner::identifier`: exact match against the fixed
reserved-word list, else an `Identifier` carrying the text. -/
def keywordToken (s : String) : Token :=
  if s = "and" then .And
  else if s = "class" then .Class
  else if s = "else" then .Else
  else if s = "false" then .False
  else if s = "fun" then .Fun
  else if s = "for" then .For
  else if s = "if" then .If
  else if s = "nil" then .Nil
  else if s = "or" then .Or
  else if s = "print" then .Print
  else if s = "return" then .Return
  else if s = "super" then .Super
  else if s = "this" then .This
  else if s = "true" then .True
  else if s = "var" then .Var
  else if s = "while" then .While
  else .Identifier s

/-- `Scanner::identifier`: move past the maximal alphanumeric run, then slice
`src[start..current + 1]` (byte-indexed in Rust, hence `byteSlice`; `none` is
the slicing panic) and look the text up in the keyword table. -/
def Scanner.identifier (st : Scanner) : Option (Token × Scanner) :=
  let cur' := runEnd rustIsAlphanumeric st.chars st.current
  match byteSlice st.chars st.start (cur' + 1) with
  | none => none
  | some cs => some (keywordToken (String.mk cs), { st with current := cur' })

/-- `Scanner::number`: consume the integer digit run; if a `'.'` follows,
consume it, and fail with `InvalidNumber` unless a digit follows it, else
consume the fractional run.  Finally slice `src[start..current + 1]` and
`parse::<f32>().unwrap()` — `none` models either the slicing panic or the
unwrap panic (`rustF32ParseOk` false). -/
def Scanner.number (st : Scanner) : Option (Except ScannerError Token × Scanner) :=
  let finish := fun (cur' : Nat) =>
    match byteSlice st.chars st.start (cur' + 1) with
    | none => none
    | some cs =>
      if rustF32ParseOk cs then
        some (Except.ok (Token.Number (String.mk cs)), { st with current := cur' })
      else none
  let cur₁ := runEnd isAsciiDigit st.chars st.current
  if st.chars.getD (cur₁ + 1) '\x00' = '.' then
    let cur₂ := cur₁ + 1
    if isAsciiDigit (st.chars.getD (cur₂ + 1) '\x00') then
      finish (runEnd isAsciiDigit st.chars cur₂)
    else
      some (Except.error (ScannerError.InvalidNumber st.line), { st with current := cur₂ })
  else
    finish cur₁

/-- The loop of `Scanner::string`, recursing on the characters from `current`
on: continue while `peek_next ≠ '"'` and not `at_end`, counting a newline at
the position checked by `peek` (the current one) just before each advance.
Returns the final `current` and the accumulated `delta_lines`. -/
def stringLoop : List Char → Nat → Nat → Nat × Nat
  | [], cur, delta => (cur, delta)
  | c :: rest, cur, delta =>
    if rest.head? = some '"' then (cur, delta)
    else stringLoop rest (cur + 1) (if c = '\n' then delta + 1 else delta)

/-- `Scanner::string`: run the loop, advance onto the closing quote, report
`UnterminatedString` at the line held on entry when past the end (note the
Rust code returns before adding `delta_lines` in that case), else add the
newline count and slice the contents strictly between the quotes. -/
def Scanner.string (st : Scanner) : Option (Except ScannerError Token × Scanner) :=
  let r := stringLoop (st.chars.drop st.current) st.current 0
  let cur'' := r.1 + 1
  if st.chars.length ≤ cur'' then
    some (Except.error (ScannerError.UnterminatedString st.line), { st with current := cur'' })
  else
    match byteSlice st.chars (st.start + 1) cur'' with
    | none => none
    | some cs =>
      some (Except.ok (Token.String (String.mk cs)),
            { st with current := cur'', line := st.line + r.2 })

/-- The loop of `Scanner::comment_or_slash`: advance while `peek_next ≠ '\n'`
and not `at_end`, i.e. stop just before the terminating newline (which the
outer dispatch then counts) or at end of input. -/
def commentLoop : List Char → Nat → Nat
  | [], cur => cur
  | _ :: rest, cur =>
    if rest.head? = some '\n' then cur else commentLoop rest (cur + 1)

/-- `Scanner::comment_or_slash`: a second `'/'` starts a line comment
(consumed, no token), otherwise a single `Slash` token. -/
def Scanner.commentOrSlash (st : Scanner) : Option Token × Scanner :=
  if st.matchNext '/' then
    (none, { st with current := commentLoop (st.chars.drop st.current) st.current })
  else
    (some Token.Slash, st)

/-- `Scanner::two_char_token`: look ahead for `'='`; when present consume it
and emit the combined operator, else the one-character operator. -/
def Scanner.twoCharToken (st : Scanner) : Option Token × Scanner :=
  let firstChar := st.peek
  let equalNext := st.matchNext '='
  let st' := if equalNext then st.advance else st
  let tok : Option Token :=
    match firstChar, equalNext with
    | '!', true => some .BangEqual
    | '!', false => some .Bang
    | '=', true => some .EqualEqual
    | '=', false => some .Equal
    | '>', true => some .GreaterEqual
    | '>', false => some .Greater
    | '<', true => some .LessEqual
    | '<', false => some .Less
    | _, _ => none
  (tok, st')

/-- `Scanner::scan_token`: classify the character at `current` and dispatch.
The result is `none` on a panic, otherwise the Rust
`Result<Option<Token>, ScannerError>` paired with the updated scanner. -/
def Scanner.scanToken (st : Scanner) : Option (Except ScannerError (Option Token) × Scanner) :=
  match st.peek with
  | '(' => some (.ok (some .LeftParen), st)
  | ')' => some (.ok (some .RightParen), st)
  | '\u007B' => some (.ok (some .LeftBrace), st)
  | '\u007D' => some (.ok (some .RightBrace), st)
  | ',' => some (.ok (some .Comma), st)
  | '.' => some (.ok (some .Dot), st)
  | '-' => some (.ok (some .Minus), st)
  | '+' => some (.ok (some .Plus), st)
  | ';' => some (.ok (some .SemiColon), st)
  | '*' => some (.ok (some .Star), st)
  | '/' =>
    let r := st.commentOrSlash
    some (.ok r.1, r.2)
  | '!' | '=' | '<' | '>' =>
    let r := st.twoCharToken
    some (.ok r.1, r.2)
  | ' ' | '\r' | '\t' => some (.ok none, st)
  | '\n' => some (.ok none, { st with line := st.line + 1 })
  | '"' => (st.string).map (fun r => (r.1.map some, r.2))
  | c =>
    if isAsciiDigit c then (st.number).map (fun r => (r.1.map some, r.2))
    else if rustIsAlphabetic c then (st.identifier).map (fun r => (.ok (some r.1), r.2))
    else some (.error (.UnknownToken st.line), st)

/-- Result of running the scan loop: a normal return carrying the produced
tokens, the final scanner state (the Rust method mutates `self`), and — as
instrumentation for the termination bound, affecting nothing else — the number
of outer loop iterations executed; or a Rust panic; or exhaustion of the
structural fuel (shown unreachable for the fuel `Scanner.scan` supplies). -/
inductive ScanResult where
  | ok (tokens : List Token) (st : Scanner) (iters : Nat)
  | panicked
  | fuelOut
  deriving DecidableEq

/-- Bump the iteration counter of a normal result. -/
def withIter : ScanResult → ScanResult
  | .ok ts st n => .ok ts st (n + 1)
  | r => r

/-- The `while !self.at_end()` loop of `Scanner::scan`: set `start`, dispatch
`scan_token`, push the token or the error, advance, repeat; append `Eof` once
the end is reached. -/
def scanLoopFuel : Nat → Scanner → List Token → ScanResult
  | 0, _, _ => .fuelOut
  | f + 1, st, toks =>
    if st.atEnd then .ok (toks ++ [Token.Eof]) st 0
    else
      match Scanner.scanToken { st with start := st.current } with
      | none => .panicked
      | some (.ok (some t), st') => withIter (scanLoopFuel f st'.advance (toks ++ [t]))
      | some (.ok none, st') => withIter (scanLoopFuel f st'.advance toks)
      | some (.error e, st') =>
        withIter (scanLoopFuel f (Scanner.advance { st' with errors := st'.errors ++ [e] }) toks)

/-- `Scanner::scan`.  The fuel `length + 1` is sufficient: every iteration
consumes at least one character (`scanLoopFuel_complete` below). -/
def Scanner.scan (st : Scanner) : ScanResult :=
  scanLoopFuel (st.chars.length + 1) st []

/-- Scanning a source text from a fresh scanner, the entry point the harness
uses: `Scanner::new(src).scan()`. -/
def scanSource (s : String) : ScanResult := (Scanner.new s).scan

example : scanSource "" = .ok [Token.Eof] (Scanner.new "") 0 := by decide
example : scanSource "+" =
    .ok [Token.Plus, Token.Eof]
      { chars := ['+'], current := 1, start := 0, line := 1, errors := [] } 1 := by decide
example : scanSource "var foo = 2" =
    .ok [Token.Var, Token.Identifier "foo", Token.Equal, Token.Number "2", Token.Eof]
      { chars := "var foo = 2".data, current := 11, start := 10, line := 1, errors := [] } 7 := by
  decide

/-! ### Basic facts about the recognizer loops -/

/-- The comment loop never moves the cursor backwards. -/
theorem commentLoop_ge : ∀ (pend : List Char) (cur : Nat), cur ≤ commentLoop pend cur := by
  intro pend
  induction pend with
  | nil => intro cur; simp [commentLoop]
  | cons c rest ih =>
    intro cur
    simp only [commentLoop]
    split
    · exact Nat.le_refl _
    · exact Nat.le_trans (Nat.le_succ cur) (ih (cur + 1))

/-- The string-literal loop never moves the cursor backwards. -/
theorem stringLoop_ge :
    ∀ (pend : List Char) (cur delta : Nat), cur ≤ (stringLoop pend cur delta).1 := by
  intro pend
  induction pend with
  | nil => intro cur delta; simp [stringLoop]
  | cons c rest ih =>
    intro cur delta
    simp only [stringLoop]
    split
    · exact Nat.le_refl _
    · exact Nat.le_trans (Nat.le_succ cur) (ih (cur + 1) _)

/-- `runEnd` never moves the cursor backwards. -/
theorem runEnd_ge (p : Char → Bool) (chars : List Char) (cur : Nat) :
    cur ≤ runEnd p chars cur := Nat.le_add_right _ _


/-- `scan_token` preserves the character list, the accumulated errors and the
`start` marker, and never moves the cursor backwards — the forward-progress
half of the scanner's loop invariant. -/
theorem Scanner.scanToken_spec {st : Scanner} {r : Except ScannerError (Option Token)}
    {st' : Scanner} (h : st.scanToken = some (r, st')) :
    st'.chars = st.chars ∧ st'.errors = st.errors ∧ st'.start = st.start ∧
      st.current ≤ st'.current := by
  unfold Scanner.scanToken at h
  split at h
  all_goals
    first
    | -- branches that return the state unchanged (or with only `line` bumped)
      (simp only [Option.some.injEq, Prod.mk.injEq] at h
       exact h.2 ▸ ⟨rfl, rfl, rfl, Nat.le_refl _⟩)
    | -- the '/' branch: comment or slash
      (simp only [Option.some.injEq, Prod.mk.injEq] at h
       obtain ⟨-, hst⟩ := h
       subst hst
       simp only [Scanner.commentOrSlash]
       split
       · exact ⟨rfl, rfl, rfl, commentLoop_ge _ _⟩
       · exact ⟨rfl, rfl, rfl, Nat.le_refl _⟩)
    | -- the '!' '=' '<' '>' branches: one- or two-character operator
      (simp only [Option.some.injEq, Prod.mk.injEq] at h
       obtain ⟨-, hst⟩ := h
       subst hst
       simp only [Scanner.twoCharToken]
       split
       · exact ⟨rfl, rfl, rfl, Nat.le_succ _⟩
       · exact ⟨rfl, rfl, rfl, Nat.le_refl _⟩)
    | -- the '"' branch: string literal
      (rw [Option.map_eq_some'] at h
       obtain ⟨⟨r₀, st₀⟩, hs, hf⟩ := h
       simp only [Prod.mk.injEq] at hf
       obtain ⟨-, hst⟩ := hf
       subst hst
       simp only [Scanner.string] at hs
       split at hs
       · simp only [Option.some.injEq, Prod.mk.injEq] at hs
         obtain ⟨-, hst⟩ := hs
         subst hst
         exact ⟨rfl, rfl, rfl, Nat.le_succ_of_le (stringLoop_ge _ _ _)⟩
       · split at hs
         · simp at hs
         · simp only [Option.some.injEq, Prod.mk.injEq] at hs
           obtain ⟨-, hst⟩ := hs
           subst hst
           exact ⟨rfl, rfl, rfl, Nat.le_succ_of_le (stringLoop_ge _ _ _)⟩)
    | -- the default branch: number, identifier or unknown token
      (split at h
       · -- number
         rw [Option.map_eq_some'] at h
         obtain ⟨⟨r₀, st₀⟩, hs, hf⟩ := h
         simp only [Prod.mk.injEq] at hf
         obtain ⟨-, hst⟩ := hf
         subst hst
         simp only [Scanner.number] at hs
         split at hs
         · split at hs
           · split at hs
             · simp at hs
             · split at hs
               · simp only [Option.some.injEq, Prod.mk.injEq] at hs
                 obtain ⟨-, hst⟩ := hs
                 subst hst
                 exact ⟨rfl, rfl, rfl,
                   Nat.le_trans (Nat.le_succ_of_le (runEnd_ge _ _ _)) (runEnd_ge _ _ _)⟩
               · simp at hs
           · simp only [Option.some.injEq, Prod.mk.injEq] at hs
             obtain ⟨-, hst⟩ := hs
             subst hst
             exact ⟨rfl, rfl, rfl, Nat.le_succ_of_le (runEnd_ge _ _ _)⟩
         · split at hs
           · simp at hs
           · split at hs
             · simp only [Option.some.injEq, Prod.mk.injEq] at hs
               obtain ⟨-, hst⟩ := hs
               subst hst
               exact ⟨rfl, rfl, rfl, runEnd_ge _ _ _⟩
             · simp at hs
       · split at h
         · -- identifier
           rw [Option.map_eq_some'] at h
           obtain ⟨⟨t₀, st₀⟩, hs, hf⟩ := h
           simp only [Prod.mk.injEq] at hf
           obtain ⟨-, hst⟩ := hf
           subst hst
           simp only [Scanner.identifier] at hs
           split at hs
           · simp at hs
           · simp only [Option.some.injEq, Prod.mk.injEq] at hs
             obtain ⟨-, hst⟩ := hs
             subst hst
             exact ⟨rfl, rfl, rfl, runEnd_ge _ _ _⟩
         · -- unknown token
           simp only [Option.some.injEq, Prod.mk.injEq] at h
           exact h.2 ▸ ⟨rfl, rfl, rfl, Nat.le_refl _⟩)

/-- An if-then-else of non-`Eof` tokens is not `Eof`. -/
theorem ite_ne_eof {c : Prop} [Decidable c] {a b : Token}
    (ha : a ≠ Token.Eof) (hb : b ≠ Token.Eof) : (if c then a else b) ≠ Token.Eof := by
  split
  · exact ha
  · exact hb

/-- The keyword table never yields the `Eof` sentinel. -/
theorem keywordToken_ne_eof (s : String) : keywordToken s ≠ Token.Eof := by
  unfold keywordToken
  iterate 16 apply ite_ne_eof (by simp)
  simp

/-- `scan_token` never produces the `Eof` sentinel: that token is appended only
once, by the outer loop, after the source is exhausted. -/
theorem Scanner.scanToken_no_eof {st : Scanner} {r : Except ScannerError (Option Token)}
    {st' : Scanner} (h : st.scanToken = some (r, st')) :
    r ≠ Except.ok (some Token.Eof) := by
  unfold Scanner.scanToken at h
  split at h
  all_goals first
  | -- branches returning a fixed result
    (simp only [Option.some.injEq, Prod.mk.injEq] at h
     obtain ⟨h1, -⟩ := h
     subst h1
     simp
     done)
  | -- the '/' branch
    (simp only [Option.some.injEq, Prod.mk.injEq] at h
     obtain ⟨h1, -⟩ := h
     subst h1
     simp only [Scanner.commentOrSlash]
     split <;> simp
     done)
  | -- the '!' '=' '<' '>' branches
    (simp only [Option.some.injEq, Prod.mk.injEq] at h
     obtain ⟨h1, -⟩ := h
     subst h1
     simp only [Scanner.twoCharToken]
     split <;> simp
     done)
  | -- the '"' branch
    (rw [Option.map_eq_some'] at h
     obtain ⟨⟨r₀, st₀⟩, hs, hf⟩ := h
     simp only [Prod.mk.injEq] at hf
     obtain ⟨hr, -⟩ := hf
     subst hr
     rcases r₀ with e | tk
     · simp [Except.map]
     · simp only [Scanner.string] at hs
       split at hs
       · simp at hs
       · split at hs
         · simp at hs
         · simp only [Option.some.injEq, Prod.mk.injEq, Except.ok.injEq] at hs
           obtain ⟨hk, -⟩ := hs
           subst hk
           simp [Except.map]
       done)
  | -- the default branch: number, identifier or unknown
    (split at h
     · rw [Option.map_eq_some'] at h
       obtain ⟨⟨r₀, st₀⟩, hs, hf⟩ := h
       simp only [Prod.mk.injEq] at hf
       obtain ⟨hr, -⟩ := hf
       subst hr
       rcases r₀ with e | tk
       · simp [Except.map]
       · simp only [Scanner.number] at hs
         split at hs
         · split at hs
           · split at hs
             · simp at hs
             · split at hs
               · simp only [Option.some.injEq, Prod.mk.injEq, Except.ok.injEq] at hs
                 obtain ⟨hk, -⟩ := hs
                 subst hk
                 simp [Except.map]
               · simp at hs
           · simp at hs
         · split at hs
           · simp at hs
           · split at hs
             · simp only [Option.some.injEq, Prod.mk.injEq, Except.ok.injEq] at hs
               obtain ⟨hk, -⟩ := hs
               subst hk
               simp [Except.map]
             · simp at hs
     · split at h
       · rw [Option.map_eq_some'] at h
         obtain ⟨⟨t₀, st₀⟩, hs, hf⟩ := h
         simp only [Prod.mk.injEq] at hf
         obtain ⟨hr, -⟩ := hf
         subst hr
         simp only [Scanner.identifier] at hs
         split at hs
         · simp at hs
         · simp only [Option.some.injEq, Prod.mk.injEq] at hs
           obtain ⟨hk, -⟩ := hs
           subst hk
           simp [keywordToken_ne_eof]
       · simp only [Option.some.injEq, Prod.mk.injEq] at h
         obtain ⟨h1, -⟩ := h
         subst h1
         simp)

/-- Forward progress of the scan loop: with fuel exceeding the number of
characters left, the loop never runs out of fuel, and the number of outer
iterations it performs is bounded by the number of characters left. -/
theorem scanLoopFuel_complete :
    ∀ (f : Nat) (st : Scanner) (toks : List Token),
      st.chars.length - st.current < f →
      scanLoopFuel f st toks ≠ ScanResult.fuelOut ∧
        ∀ ts s n, scanLoopFuel f st toks = ScanResult.ok ts s n →
          n ≤ st.chars.length - st.current := by
  intro f
  induction f with
  | zero => intro st toks h; exact absurd h (Nat.not_lt_zero _)
  | succ f ih =>
    intro st toks h
    simp only [scanLoopFuel]
    split
    · refine ⟨by simp, ?_⟩
      intro ts s n h'
      cases h'
      exact Nat.zero_le _
    · rename_i hae
      have hlt : st.current < st.chars.length := by
        simp only [Scanner.atEnd, decide_eq_true_eq] at hae
        omega
      rcases hst : Scanner.scanToken { st with start := st.current } with _ | ⟨r, st'⟩
      · simp [hst]
      · obtain ⟨hchars0, herrs0, hstart0, hcur0⟩ := Scanner.scanToken_spec hst
        have hchars : st'.chars = st.chars := hchars0
        have hcur : st.current ≤ st'.current := hcur0
        have key : ∀ (stX : Scanner) (toksX : List Token), stX.chars = st.chars →
            stX.current = st'.current + 1 →
            withIter (scanLoopFuel f stX toksX) ≠ ScanResult.fuelOut ∧
              ∀ ts s n, withIter (scanLoopFuel f stX toksX) = ScanResult.ok ts s n →
                n ≤ st.chars.length - st.current := by
          intro stX toksX hX1 hX2
          obtain ⟨ih1, ih2⟩ := ih stX toksX (by rw [hX1, hX2]; omega)
          constructor
          · rcases hrec : scanLoopFuel f stX toksX with ⟨ts₀, s₀, n₀⟩ | _ | _
            · simp [withIter, hrec]
            · simp [withIter, hrec]
            · exact absurd hrec ih1
          · intro ts s n h'
            rcases hrec : scanLoopFuel f stX toksX with ⟨ts₀, s₀, n₀⟩ | _ | _
            · rw [hrec] at h'
              simp only [withIter] at h'
              cases h'
              have := ih2 _ _ _ hrec
              rw [hX1, hX2] at this
              omega
            · rw [hrec] at h'
              simp [withIter] at h'
            · exact absurd hrec ih1
        rcases r with e | ot
        · simp only [hst]
          exact key _ _ hchars rfl
        · rcases ot with _ | t
          · simp only [hst]
            exact key _ _ hchars rfl
          · simp only [hst]
            exact key _ _ hchars rfl

/-- Structure of a completed scan: whatever tokens the loop was seeded with, it
appends some `Eof`-free middle segment and then exactly one final `Eof`. -/
theorem scanLoopFuel_tokens :
    ∀ (f : Nat) (st : Scanner) (toks ts : List Token) (s : Scanner) (n : Nat),
      scanLoopFuel f st toks = ScanResult.ok ts s n →
      ∃ mid, ts = toks ++ mid ++ [Token.Eof] ∧ Token.Eof ∉ mid := by
  intro f
  induction f with
  | zero =>
    intro st toks ts s n h
    exact absurd h (by simp [scanLoopFuel])
  | succ f ih =>
    intro st toks ts s n h
    simp only [scanLoopFuel] at h
    split at h
    · cases h
      exact ⟨[], by simp, by simp⟩
    · rcases hst : Scanner.scanToken { st with start := st.current } with _ | ⟨r, st'⟩
      · rw [hst] at h
        simp at h
      · rw [hst] at h
        have key : ∀ (stX : Scanner) (toksX : List Token),
            withIter (scanLoopFuel f stX toksX) = ScanResult.ok ts s n →
            ∃ mid, ts = toksX ++ mid ++ [Token.Eof] ∧ Token.Eof ∉ mid := by
          intro stX toksX h'
          rcases hrec : scanLoopFuel f stX toksX with ⟨ts₀, s₀, n₀⟩ | _ | _ <;>
            rw [hrec] at h'
          · simp only [withIter] at h'
            cases h'
            exact ih stX toksX _ _ _ hrec
          · simp [withIter] at h'
          · simp [withIter] at h'
        rcases r with e | ot
        · exact key _ _ h
        · rcases ot with _ | t
          · exact key _ _ h
          · have ht : t ≠ Token.Eof := by
              intro hh
              subst hh
              exact (Scanner.scanToken_no_eof hst) rfl
            obtain ⟨mid', hmid, hnotin⟩ := key _ _ h
            refine ⟨t :: mid', by simpa using hmid, ?_⟩
            simp only [List.mem_cons, not_or]
            exact ⟨fun hh => ht hh.symm, hnotin⟩

/-- Error accumulation: a completed scan only ever appends to the error list it
started with; no accumulated error is dropped or reordered. -/
theorem scanLoopFuel_errors :
    ∀ (f : Nat) (st : Scanner) (toks ts : List Token) (s : Scanner) (n : Nat),
      scanLoopFuel f st toks = ScanResult.ok ts s n →
      ∃ es, s.errors = st.errors ++ es := by
  intro f
  induction f with
  | zero =>
    intro st toks ts s n h
    exact absurd h (by simp [scanLoopFuel])
  | succ f ih =>
    intro st toks ts s n h
    simp only [scanLoopFuel] at h
    split at h
    · cases h
      exact ⟨[], by simp⟩
    · rcases hst : Scanner.scanToken { st with start := st.current } with _ | ⟨r, st'⟩
      · rw [hst] at h
        simp at h
      · rw [hst] at h
        obtain ⟨hchars0, herrs0, hstart0, hcur0⟩ := Scanner.scanToken_spec hst
        have herrs : st'.errors = st.errors := herrs0
        have key : ∀ (stX : Scanner) (toksX : List Token) (pre : List ScannerError),
            stX.errors = st.errors ++ pre →
            withIter (scanLoopFuel f stX toksX) = ScanResult.ok ts s n →
            ∃ es, s.errors = st.errors ++ es := by
          intro stX toksX pre hXe h'
          rcases hrec : scanLoopFuel f stX toksX with ⟨ts₀, s₀, n₀⟩ | _ | _ <;>
            rw [hrec] at h'
          · simp only [withIter] at h'
            cases h'
            obtain ⟨es, hes⟩ := ih stX toksX _ _ _ hrec
            exact ⟨pre ++ es, by rw [hes, hXe, List.append_assoc]⟩
          · simp [withIter] at h'
          · simp [withIter] at h'
        rcases r with e | ot
        · exact key _ _ [e] (by simp [Scanner.advance, herrs]) h
        · rcases ot with _ | t
          · exact key _ _ [] (by simp [Scanner.advance, herrs]) h
          · exact key _ _ [] (by simp [Scanner.advance, herrs]) h

/-- When no `'"'` occurs after the cursor position, the string loop runs to the
end of the input: the final cursor is the initial one plus the number of
characters left (so the subsequent advance-and-check reports an unterminated
string). -/
theorem stringLoop_no_quote :
    ∀ (pend : List Char) (cur delta : Nat), '"' ∉ pend.tail →
      (stringLoop pend cur delta).1 = cur + pend.length := by
  intro pend
  induction pend with
  | nil => intro cur delta _; simp [stringLoop]
  | cons c rest ih =>
    intro cur delta h
    simp only [List.tail_cons] at h
    simp only [stringLoop]
    split
    · rename_i hq
      exact absurd (List.mem_of_mem_head? (Option.mem_def.mpr hq)) h
    · rw [ih (cur + 1) _ (fun hm => h (List.mem_of_mem_tail hm))]
      simp only [List.length_cons]
      omega

/-- One step of the scan loop when the dispatched recognizer raises an error:
the error is pushed, the cursor advanced, and the loop continues. -/
theorem scanLoopFuel_step_error {st : Scanner} {e : ScannerError} {st' : Scanner}
    (f : Nat) (toks : List Token)
    (h : Scanner.scanToken { st with start := st.current } = some (.error e, st'))
    (hae : st.atEnd = false) :
    scanLoopFuel (f + 1) st toks =
      withIter (scanLoopFuel f (Scanner.advance { st' with errors := st'.errors ++ [e] }) toks) := by
  simp only [scanLoopFuel, hae, Bool.false_eq_true, if_false, h]

/-- One step of the scan loop when the dispatched recognizer produces a token:
the token is appended, the cursor advanced, and the loop continues. -/
theorem scanLoopFuel_step_token {st : Scanner} {t : Token} {st' : Scanner}
    (f : Nat) (toks : List Token)
    (h : Scanner.scanToken { st with start := st.current } = some (.ok (some t), st'))
    (hae : st.atEnd = false) :
    scanLoopFuel (f + 1) st toks =
      withIter (scanLoopFuel f st'.advance (toks ++ [t])) := by
  simp only [scanLoopFuel, hae, Bool.false_eq_true, if_false, h]

/-- The scan loop at an exhausted input: append the `Eof` sentinel and stop. -/
theorem scanLoopFuel_exit (f : Nat) (st : Scanner) (toks : List Token)
    (hae : st.atEnd = true) :
    scanLoopFuel (f + 1) st toks = ScanResult.ok (toks ++ [Token.Eof]) st 0 := by
  simp only [scanLoopFuel, hae, if_true]

/-! ### Claim theorems -/

/-- C1: the claim states that `scan` returns normally on every input,
including non-ASCII text.  The code violates this: `Scanner::identifier`
slices `self.src[self.start..self.current + 1]` with character-count indices,
but Rust string slicing is byte-indexed, so on the input `é` (a two-byte
character that Unicode classifies as alphabetic) the slice `&src[0..1]` ends
inside the character and panics.  This theorem evaluates the embedded scanner
at that failing input: the scan panics instead of returning. -/
theorem c1_scan_panics_on_nonascii : scanSource "é" = ScanResult.panicked := by decide

/-- C4: the claim states that `1234.` scans as a Number token for `1234`
followed by a Dot token.  The code instead consumes the digits *and* the dot,
records `InvalidNumber` at line 1, and emits neither a Number nor a Dot token:
the scan of `1234.` returns only the `Eof` sentinel, with the error list
`[InvalidNumber 1]`.  (The spec itself fixes the claimed behaviour as the
reference semantics and calls any other behaviour a bug.) -/
theorem c4_number_dot_dropped :
    scanSource "1234." =
      ScanResult.ok [Token.Eof]
        { chars := "1234.".data, current := 5, start := 0, line := 1,
          errors := [ScannerError.InvalidNumber 1] } 1 := by decide

/-- C6: the claim states that every `\n` increments the line counter exactly
once, including newlines inside string literals.  The code's string loop only
counts a newline at the position *before* the one it checks for the closing
quote, so a newline immediately preceding the closing quote is never counted
(and on the unterminated path `delta_lines` is discarded entirely).  On the
input `"\n"@` the embedded newline is missed: the `@` on (naively counted)
line 2 is reported as `UnknownToken` at line 1. -/
theorem c6_newline_before_quote_uncounted :
    scanSource "\"\n\"@" =
      ScanResult.ok [Token.String "\n", Token.Eof]
        { chars := "\"\n\"@".data, current := 4, start := 3, line := 1,
          errors := [ScannerError.UnknownToken 1] } 2 := by decide

/-- C7: the claim states that every token carries provenance (the exact source
slice and the 1-based line of its first character) and that `Eof` is stamped
with the line reached.  The code's `Token` is a bare kind enumeration with no
lexeme or line data (the repository's own tests access `token.kind` and
`token.lexeme`, fields the shipped type does not have): scanning `+` on line 1
and on line 2 produces byte-for-byte identical token values, and the final
`Eof` values are identical too, so no line or slice can be recovered from a
token. -/
theorem c7_tokens_carry_no_provenance :
    scanSource "+" =
      ScanResult.ok [Token.Plus, Token.Eof]
        { chars := "+".data, current := 1, start := 0, line := 1, errors := [] } 1 ∧
    scanSource "\n+" =
      ScanResult.ok [Token.Plus, Token.Eof]
        { chars := "\n+".data, current := 2, start := 1, line := 2, errors := [] } 2 := by
  exact ⟨by decide, by decide⟩

/-- C2 (counterexample): the claim states that `scan` hands the caller the
error sequence as data alongside the tokens.  In the code `scan` returns only
`Vec<Token>`: for the input `@` the returned token list is `[Eof]`, identical
to the returned token list for the empty input, while the `UnknownToken` error
is observable only in the scanner's private `errors` field — the return value
carries no error data at all. -/
theorem c2_errors_not_returned :
    scanSource "@" =
      ScanResult.ok [Token.Eof]
        { chars := "@".data, current := 1, start := 0, line := 1,
          errors := [ScannerError.UnknownToken 1] } 1 ∧
    scanSource "" = ScanResult.ok [Token.Eof] (Scanner.new "") 0 := by
  exact ⟨by decide, by decide⟩

/-- C2 (amended): `scan` returns only the token sequence; every accumulated
`ScanError` is retained, in order, in the scanner's internal `errors` field —
a completed scan only ever appends to the error list it started with. -/
theorem c2_errors_retained_internally (f : Nat) (st : Scanner) (toks ts : List Token)
    (sF : Scanner) (n : Nat) (h : scanLoopFuel f st toks = ScanResult.ok ts sF n) :
    ∃ es, sF.errors = st.errors ++ es :=
  scanLoopFuel_errors f st toks ts sF n h

/-- Witness for the amended C2 at the concrete input `@`: the recorded
`UnknownToken` error is an appended suffix of the internal error list. -/
theorem c2_errors_retained_internally_witness :
    ∃ es, ({ chars := "@".data, current := 1, start := 0, line := 1,
             errors := [ScannerError.UnknownToken 1] } : Scanner).errors =
      (Scanner.new "@").errors ++ es :=
  c2_errors_retained_internally 2 (Scanner.new "@") [] [Token.Eof] _ 1 (by decide)

/-- C3: whenever `scan` returns normally, the returned token sequence is
non-empty, ends with the `Eof` sentinel, and contains `Eof` exactly once. -/
theorem c3_eof_sentinel (s : String) (ts : List Token) (stF : Scanner) (n : Nat)
    (h : scanSource s = ScanResult.ok ts stF n) :
    ts ≠ [] ∧ ts.getLast? = some Token.Eof ∧ ts.count Token.Eof = 1 := by
  obtain ⟨mid, hts, hnot⟩ := scanLoopFuel_tokens _ _ _ _ _ _ h
  subst hts
  refine ⟨by simp, ?_, ?_⟩
  · simp [List.getLast?_concat]
  · rw [List.nil_append, List.count_append, List.count_eq_zero.mpr hnot]
    decide

/-- Witness for C3 at the concrete input `1+2`. -/
theorem c3_eof_sentinel_witness :
    ([Token.Number "1", Token.Plus, Token.Number "2", Token.Eof] : List Token) ≠ [] ∧
      ([Token.Number "1", Token.Plus, Token.Number "2",
        Token.Eof] : List Token).getLast? = some Token.Eof ∧
      ([Token.Number "1", Token.Plus, Token.Number "2",
        Token.Eof] : List Token).count Token.Eof = 1 :=
  c3_eof_sentinel "1+2" _
    { chars := "1+2".data, current := 3, start := 2, line := 1, errors := [] } 3 (by decide)

/-- C10: scanning always terminates in a single linear pass — the scan never
exhausts its fuel (which exceeds the input length by one), and on a normal
return the number of outer loop iterations is bounded by the number of
characters in the input. -/
theorem c10_linear_termination (s : String) :
    scanSource s ≠ ScanResult.fuelOut ∧
      ∀ ts stF n, scanSource s = ScanResult.ok ts stF n → n ≤ s.data.length := by
  have h := scanLoopFuel_complete (s.data.length + 1) (Scanner.new s) []
    (by simp [Scanner.new])
  refine ⟨h.1, ?_⟩
  intro ts stF n hok
  have := h.2 ts stF n hok
  simpa [Scanner.new] using this

/-- Witness for C10 at the concrete input `a+b`: three iterations for three
characters. -/
theorem c10_linear_termination_witness :
    scanSource "a+b" ≠ ScanResult.fuelOut ∧ (3 : Nat) ≤ "a+b".data.length :=
  ⟨(c10_linear_termination "a+b").1,
    (c10_linear_termination "a+b").2 [Token.Identifier "a", Token.Plus, Token.Identifier "b",
      Token.Eof]
      { chars := "a+b".data, current := 3, start := 2, line := 1, errors := [] } 3 (by decide)⟩

/-- C5 (counterexample): the claim states that every non-ASCII character
outside a string literal is consumed as an `UnknownToken` error with no token
emitted, on the grounds that identifiers are ASCII-only.  But the code
dispatches on Rust's Unicode `char::is_alphabetic`: on the input `éé` the
scanner runs the identifier recognizer (whose byte-mangled slice happens to be
valid here), emits an `Identifier` token, and records no error at all. -/
theorem c5_nonascii_not_unknown :
    scanSource "éé" =
      ScanResult.ok [Token.Identifier "é", Token.Eof]
        { chars := "éé".data, current := 2, start := 0, line := 1, errors := [] } 1 := by
  decide

/-- C5 (amended): every character at the cursor that matches none of the
dispatch rules — not a recognized punctuation or operator character, not
whitespace, not a quote, not an ASCII digit, and not alphabetic in the sense
of Rust's Unicode `char::is_alphabetic` (so, unlike the original claim,
non-ASCII letters do *not* fall here) — makes the scanner record `UnknownToken`
at the current line, consume exactly that one character, and emit no token. -/
theorem c5_unknown_token_step (st : Scanner) (toks : List Token) (f : Nat) (c : Char)
    (h1 : st.chars.getD st.current '\x00' = c)
    (hin : st.current < st.chars.length)
    (hnot : c ∉ ['(', ')', '\u007B', '\u007D', ',', '.', '-', '+', ';', '*', '/',
                 '!', '=', '<', '>', ' ', '\r', '\t', '\n', '"'])
    (hdig : isAsciiDigit c = false)
    (halpha : rustIsAlphabetic c = false) :
    scanLoopFuel (f + 1) st toks =
      withIter (scanLoopFuel f
        { chars := st.chars, current := st.current + 1, start := st.current,
          line := st.line, errors := st.errors ++ [ScannerError.UnknownToken st.line] }
        toks) := by
  have hae : st.atEnd = false := by
    simp only [Scanner.atEnd, decide_eq_false_iff_not]
    omega
  have hst : Scanner.scanToken { st with start := st.current } =
      some (.error (ScannerError.UnknownToken st.line), { st with start := st.current }) := by
    unfold Scanner.scanToken
    rw [show ({ st with start := st.current } : Scanner).peek = c from h1]
    split
    all_goals simp_all
  rw [scanLoopFuel_step_error f toks hst hae]
  rfl

/-- Witness for the amended C5 at the concrete input `@`. -/
theorem c5_unknown_token_step_witness :
    scanLoopFuel 2 (Scanner.new "@") [] =
      withIter (scanLoopFuel 1
        { chars := "@".data, current := 1, start := 0, line := 1,
          errors := [ScannerError.UnknownToken 1] } []) :=
  c5_unknown_token_step (Scanner.new "@") [] 1 '@' (by decide) (by decide) (by decide)
    (by decide) (by decide)

/-- C9: whenever the cursor stands on one of `!` `=` `<` `>` and the next
character is `=`, the scanner emits the single combined two-character operator
token and consumes both characters — so the `=` can never be re-scanned as a
separate `Equal` token. -/
theorem c9_combined_operator (st : Scanner) (toks : List Token) (f : Nat) (c : Char) (t : Token)
    (hct : (c, t) ∈ [('!', Token.BangEqual), ('=', Token.EqualEqual),
                     ('<', Token.LessEqual), ('>', Token.GreaterEqual)])
    (h1 : st.chars.getD st.current '\x00' = c)
    (h2 : st.chars.getD (st.current + 1) '\x00' = '=') :
    scanLoopFuel (f + 1) st toks =
      withIter (scanLoopFuel f
        { chars := st.chars, current := st.current + 2, start := st.current,
          line := st.line, errors := st.errors } (toks ++ [t])) := by
  simp only [List.mem_cons, List.mem_singleton, Prod.mk.injEq, List.not_mem_nil, or_false]
    at hct
  rcases hct with ⟨hc, ht⟩ | ⟨hc, ht⟩ | ⟨hc, ht⟩ | ⟨hc, ht⟩ <;> subst hc <;>
  · have hlt : st.current < st.chars.length := by
      by_contra hn
      push_neg at hn
      rw [List.getD_eq_default _ _ hn] at h1
      exact absurd h1 (by decide)
    have hlt1 : st.current + 1 < st.chars.length := by
      by_contra hn
      push_neg at hn
      rw [List.getD_eq_default _ _ hn] at h2
      exact absurd h2 (by decide)
    have hnle : ¬ st.chars.length ≤ st.current := by omega
    have hae : st.atEnd = false := by
      simp only [Scanner.atEnd, decide_eq_false_iff_not]
      omega
    have hst : Scanner.scanToken { st with start := st.current } =
        some (.ok (some t), { st with start := st.current, current := st.current + 1 }) := by
      subst ht
      unfold Scanner.scanToken
      rw [show ({ st with start := st.current } : Scanner).peek
            = st.chars.getD st.current '\x00' from rfl, h1]
      have h1' := h1
      have h2' := h2
      simp only [List.getD_eq_getD_get?, List.get?_eq_getElem?] at h1' h2'
      simp [Scanner.twoCharToken, Scanner.matchNext, Scanner.atEnd, Scanner.peek,
        Scanner.peekNext, Scanner.advance, h1', h2', hnle]
    rw [scanLoopFuel_step_token f toks hst hae]
    rfl

/-- Witness for C9 at the concrete input `<=`. -/
theorem c9_combined_operator_witness :
    scanLoopFuel 2 (Scanner.new "<=") [] =
      withIter (scanLoopFuel 1
        { chars := "<=".data, current := 2, start := 0, line := 1, errors := [] }
        [Token.LessEqual]) :=
  c9_combined_operator (Scanner.new "<=") [] 1 '<' Token.LessEqual (by decide) (by decide)
    (by decide)

/-- C8: whenever the cursor stands on an opening `"` and no further `"` occurs
before the end of the input, the scan records exactly one `UnterminatedString`
error stamped with the line the string started on (the scanner's line counter
at the opening quote, unaffected by any embedded newlines), emits no token for
the literal, and still finishes the scan with the `Eof` sentinel. -/
theorem c8_unterminated_string (st : Scanner) (toks : List Token) (f : Nat)
    (hq : st.chars.getD st.current '\x00' = '"')
    (hnone : '"' ∉ st.chars.drop (st.current + 1)) :
    scanLoopFuel (f + 2) st toks =
      ScanResult.ok (toks ++ [Token.Eof])
        { chars := st.chars, current := st.chars.length + 2, start := st.current,
          line := st.line,
          errors := st.errors ++ [ScannerError.UnterminatedString st.line] } 1 := by
  have hlt : st.current < st.chars.length := by
    by_contra hn
    push_neg at hn
    rw [List.getD_eq_default _ _ hn] at hq
    exact absurd hq (by decide)
  have hae : st.atEnd = false := by
    simp only [Scanner.atEnd, decide_eq_false_iff_not]
    omega
  have hsl : (stringLoop (st.chars.drop st.current) st.current 0).1 = st.chars.length := by
    rw [stringLoop_no_quote _ _ _ (by rw [List.tail_drop]; exact hnone)]
    rw [List.length_drop]
    omega
  have hstring : Scanner.string { st with start := st.current } =
      some (.error (.UnterminatedString st.line),
        { chars := st.chars, current := st.chars.length + 1, start := st.current,
          line := st.line, errors := st.errors }) := by
    simp only [Scanner.string, hsl]
    rw [if_pos (Nat.le_succ _)]
  have hst : Scanner.scanToken { st with start := st.current } =
      some (.error (.UnterminatedString st.line),
        { chars := st.chars, current := st.chars.length + 1, start := st.current,
          line := st.line, errors := st.errors }) := by
    unfold Scanner.scanToken
    rw [show ({ st with start := st.current } : Scanner).peek = '"' from hq]
    simp [hstring, Except.map]
  rw [scanLoopFuel_step_error (f + 1) toks hst hae]
  have hexit : (Scanner.advance
      { chars := st.chars, current := st.chars.length + 1, start := st.current,
        line := st.line,
        errors := st.errors ++ [ScannerError.UnterminatedString st.line] }).atEnd = true := by
    simp only [Scanner.atEnd, Scanner.advance, decide_eq_true_eq]
    omega
  rw [scanLoopFuel_exit f _ toks hexit]
  simp [withIter, Scanner.advance]

/-- Witness for C8 at the concrete input `"ab` (an opening quote never
closed). -/
theorem c8_unterminated_string_witness :
    scanLoopFuel 2 (Scanner.new "\"ab") [] =
      ScanResult.ok [Token.Eof]
        { chars := "\"ab".data, current := 5, start := 0, line := 1,
          errors := [ScannerError.UnterminatedString 1] } 1 :=
  c8_unterminated_string (Scanner.new "\"ab") [] 0 (by decide) (by decide)
